import Mathlib

/-!
Shallow embedding of the CHIP-8 virtual machine from `src/chip8.rs`
(plus the duplicate constructor in `src/chip8/mod.rs`).

Machine integers are embedded as `Nat` with explicit `% 2^w` at every
operation where Rust release-mode wrapping applies (`u8` ⇒ `% 256`,
`u16` ⇒ `% 65536`).  Bit-field extractions `(op & 0xF00) >> 8` etc. are
embedded arithmetically as `op / 256 % 16`; low masks `op & 0xFF` as
`op % 256`.  Array indexing that can panic in Rust (out of bounds) and
explicit `panic!` calls are modelled by returning `none`; handlers have
type `Chip8 → Option Chip8`.  The `rand` byte consumed by opcode `CXNN`
is passed in as an explicit parameter.
-/

/-- VM state, mirroring `struct Chip8` in `src/chip8.rs` (the `rng` host
resource is externalized as a parameter and the `opcode_fns` table is the
dispatch in `emulateCycle`). -/
structure Chip8 where
  opcode : Nat
  memory : Nat → Nat
  v : Nat → Nat
  i : Nat
  pc : Nat
  gfx : Nat → Nat
  delayTimer : Nat
  soundTimer : Nat
  stack : Nat → Nat
  sp : Nat
  key : Nat → Nat
  drawFlag : Bool
  timerTick : Nat

/-- Pointwise array update `a[i] = x`. -/
def upd (f : Nat → Nat) (i x : Nat) : Nat → Nat :=
  fun j => if j = i then x else f j

/-- The 80-byte fontset copied into memory by the constructor. -/
def chip8_fontset : List Nat :=
  [0xF0, 0x90, 0x90, 0x90, 0xF0,
   0x20, 0x60, 0x20, 0x20, 0x70,
   0xF0, 0x10, 0xF0, 0x80, 0xF0,
   0xF0, 0x10, 0xF0, 0x10, 0xF0,
   0x90, 0x90, 0xF0, 0x10, 0x10,
   0xF0, 0x80, 0xF0, 0x10, 0xF0,
   0xF0, 0x80, 0xF0, 0x90, 0xF0,
   0xF0, 0x10, 0x20, 0x40, 0x40,
   0xF0, 0x90, 0xF0, 0x90, 0xF0,
   0xF0, 0x90, 0xF0, 0x10, 0xF0,
   0xF0, 0x90, 0xF0, 0x90, 0x90,
   0xE0, 0x90, 0xE0, 0x90, 0xE0,
   0xF0, 0x80, 0x80, 0x80, 0xF0,
   0xE0, 0x90, 0x90, 0x90, 0xE0,
   0xF0, 0x80, 0xF0, 0x80, 0xF0,
   0xF0, 0x80, 0xF0, 0x80, 0x80]

/-- Constructor `Chip8::new` in `src/chip8.rs`: zeroed state, fontset in the first 80
bytes of memory, `pc = 0x200`. -/
def Chip8.new : Chip8 where
  opcode := 0
  memory := fun a => if a < 80 then chip8_fontset.getD a 0 else 0
  v := fun _ => 0
  i := 0
  pc := 0x200
  gfx := fun _ => 0
  delayTimer := 0
  soundTimer := 0
  stack := fun _ => 0
  sp := 0
  key := fun _ => 0
  drawFlag := false
  timerTick := 0

/-- The VM state struct of the duplicate module `src/chip8/mod.rs`
(fields `opcode` through `key` only; its `v` array is `[u16; 16]`). -/
structure Chip8M where
  opcode : Nat
  memory : Nat → Nat
  v : Nat → Nat
  i : Nat
  pc : Nat
  gfx : Nat → Nat
  delayTimer : Nat
  soundTimer : Nat
  stack : Nat → Nat
  sp : Nat
  key : Nat → Nat

/-- Constructor `Chip8::new` in `src/chip8/mod.rs`: identical zeroing and fontset
copy, but `pc` is initialized to `0`. -/
def Chip8M.new : Chip8M where
  opcode := 0
  memory := fun a => if a < 80 then chip8_fontset.getD a 0 else 0
  v := fun _ => 0
  i := 0
  pc := 0
  gfx := fun _ => 0
  delayTimer := 0
  soundTimer := 0
  stack := fun _ => 0
  sp := 0
  key := fun _ => 0

/-- Opcode family `00**` (`Chip8::cls_ret`): `00E0` clears the screen,
`00EE` returns from a subroutine (fatal if `sp < 1`; the stack read at
`sp - 1` is in bounds only when `sp - 1 < 16`). -/
def cls_ret (c : Chip8) : Option Chip8 :=
  if c.opcode % 256 = 0xE0 then
    some { c with gfx := fun _ => 0, pc := (c.pc + 2) % 65536 }
  else if c.opcode % 256 = 0xEE then
    if c.sp < 1 then none
    else if c.sp - 1 < 16 then
      some { c with sp := c.sp - 1,
                    pc := (c.stack (c.sp - 1) + 2) % 65536,
                    stack := upd c.stack (c.sp - 1) 0 }
    else none
  else none

/-- Opcode `1NNN` (`Chip8::jmp`): jump to `NNN`. -/
def jmp (c : Chip8) : Option Chip8 :=
  some { c with pc := c.opcode % 4096 }

/-- Opcode `2NNN` (`Chip8::call`): push `pc`, increment `sp`, jump to `NNN`
(the stack write is in bounds only when `sp < 16`). -/
def call (c : Chip8) : Option Chip8 :=
  if c.sp < 16 then
    some { c with stack := upd c.stack c.sp c.pc,
                  sp := c.sp + 1,
                  pc := c.opcode % 4096 }
  else none

/-- Opcode `3XNN` (`Chip8::eb`): skip if `VX == NN`. -/
def eb (c : Chip8) : Option Chip8 :=
  let x := c.opcode / 256 % 16
  let n := c.opcode % 256
  some { c with pc := (c.pc + if c.v x = n then 4 else 2) % 65536 }

/-- Opcode `4XNN` (`Chip8::neb`): skip if `VX != NN`. -/
def neb (c : Chip8) : Option Chip8 :=
  let x := c.opcode / 256 % 16
  let n := c.opcode % 256
  some { c with pc := (c.pc + if c.v x ≠ n then 4 else 2) % 65536 }

/-- Opcode `5XY0` (`Chip8::er`): skip if `VX == VY`. -/
def er (c : Chip8) : Option Chip8 :=
  let x := c.opcode / 256 % 16
  let y := c.opcode / 16 % 16
  some { c with pc := (c.pc + if c.v x = c.v y then 4 else 2) % 65536 }

/-- Opcode `6XNN` (`Chip8::ld`): set `VX = NN`. -/
def ld (c : Chip8) : Option Chip8 :=
  let x := c.opcode / 256 % 16
  let n := c.opcode % 256
  some { c with v := upd c.v x n, pc := (c.pc + 2) % 65536 }

/-- Opcode `7XNN` (`Chip8::addb`): `VX += NN`, 8-bit wrapping, no carry flag. -/
def addb (c : Chip8) : Option Chip8 :=
  let x := c.opcode / 256 % 16
  let n := c.opcode % 256
  some { c with v := upd c.v x ((c.v x + n) % 256), pc := (c.pc + 2) % 65536 }

/-- Opcode `8XY*` (`Chip8::alu`).  The flag write to `v[0xF]` happens before the
arithmetic write to `v[x]`, exactly as in the source, so the second write
reads the already-updated register file (this matters when `x` or `y` is
`0xF`).  Unhandled low nibbles are fatal. -/
def alu (c : Chip8) : Option Chip8 :=
  let x := c.opcode / 256 % 16
  let y := c.opcode / 16 % 16
  let k := c.opcode % 16
  let newV : Option (Nat → Nat) :=
    if k = 0x0 then some (upd c.v x (c.v y))
    else if k = 0x1 then some (upd c.v x (c.v x ||| c.v y))
    else if k = 0x2 then some (upd c.v x (c.v x &&& c.v y))
    else if k = 0x3 then some (upd c.v x (c.v x ^^^ c.v y))
    else if k = 0x4 then
      let v1 := upd c.v 0xF (if 0xFF - c.v x < c.v y then 1 else 0)
      some (upd v1 x ((v1 x + v1 y) % 256))
    else if k = 0x5 then
      let v1 := upd c.v 0xF (if c.v x < c.v y then 0 else 1)
      some (upd v1 x ((v1 x + 256 - v1 y) % 256))
    else if k = 0x6 then
      let v1 := upd c.v 0xF (c.v x &&& 0x1)
      some (upd v1 x (v1 x / 2))
    else if k = 0x7 then
      let v1 := upd c.v 0xF (if c.v y < c.v x then 0 else 1)
      some (upd v1 x ((v1 y + 256 - v1 x) % 256))
    else if k = 0xE then
      let v1 := upd c.v 0xF (if c.v x &&& 0x80 = 0x80 then 1 else 0)
      some (upd v1 x (v1 x * 2 % 256))
    else none
  match newV with
  | some v2 => some { c with v := v2, pc := (c.pc + 2) % 65536 }
  | none => none

/-- Opcode `9XY0` (`Chip8::ner`): skip if `VX != VY`. -/
def ner (c : Chip8) : Option Chip8 :=
  let x := c.opcode / 256 % 16
  let y := c.opcode / 16 % 16
  some { c with pc := (c.pc + if c.v x ≠ c.v y then 4 else 2) % 65536 }

/-- Opcode `ANNN` (`Chip8::si`): set `I = NNN`. -/
def si (c : Chip8) : Option Chip8 :=
  some { c with i := c.opcode % 4096, pc := (c.pc + 2) % 65536 }

/-- Opcode `BNNN` (`Chip8::jmpo`): jump to `NNN + V0`. -/
def jmpo (c : Chip8) : Option Chip8 :=
  some { c with pc := (c.opcode % 4096 + c.v 0) % 65536 }

/-- Opcode `CXNN` (`Chip8::rng`): `VX = NN & random byte`; the byte drawn from
the host RNG is the explicit `rand` parameter. -/
def rng (rand : Nat) (c : Chip8) : Option Chip8 :=
  let x := c.opcode / 256 % 16
  let n := c.opcode % 256
  some { c with v := upd c.v x (n &&& rand % 256), pc := (c.pc + 2) % 65536 }

/-- Inner loop of `Chip8::draw`: for `p` in `[p0, p0 + fuel)`, if sprite
bit `p` is set, toggle the framebuffer pixel at
`64*((vy+row)%32) + (vx+p)%64`, recording a collision in `vf`. -/
def drawCols (pixel vx vy row : Nat) (p0 fuel : Nat) (g : Nat → Nat)
    (vf : Nat) : (Nat → Nat) × Nat :=
  match fuel with
  | 0 => (g, vf)
  | fuel + 1 =>
    if pixel &&& (0x80 >>> p0) ≠ 0 then
      let off := 64 * ((vy + row) % 32) + (vx + p0) % 64
      if g off = 1 then
        drawCols pixel vx vy row (p0 + 1) fuel (upd g off 0) 1
      else
        drawCols pixel vx vy row (p0 + 1) fuel (upd g off 1) vf
    else
      drawCols pixel vx vy row (p0 + 1) fuel g vf

/-- Outer loop of `Chip8::draw`: rows `[row0, row0 + fuel)`; the sprite
byte for each row is read from memory at `i + row` (fatal if out of
bounds). -/
def drawRows (mem : Nat → Nat) (i vx vy : Nat) (row0 fuel : Nat)
    (g : Nat → Nat) (vf : Nat) : Option ((Nat → Nat) × Nat) :=
  match fuel with
  | 0 => some (g, vf)
  | fuel + 1 =>
    if i + row0 < 4096 then
      let s := drawCols (mem (i + row0)) vx vy row0 0 8 g vf
      drawRows mem i vx vy (row0 + 1) fuel s.1 s.2
    else none

/-- Opcode `DXYN` (`Chip8::draw`): XOR-draw an 8×N sprite from memory at `I`
to position `(VX, VY)`; `v[0xF] = 1` iff some pixel was unset. -/
def draw (c : Chip8) : Option Chip8 :=
  let x := c.opcode / 256 % 16
  let y := c.opcode / 16 % 16
  let height := c.opcode % 16
  match drawRows c.memory c.i (c.v x) (c.v y) 0 height c.gfx 0 with
  | some s =>
    some { c with gfx := s.1, v := upd c.v 0xF s.2,
                  drawFlag := true, pc := (c.pc + 2) % 65536 }
  | none => none

/-- Opcode `EX**` (`Chip8::key`): the key array is indexed by the runtime value
of `VX` before the sub-opcode dispatch (fatal if `VX ≥ 16`); `9E` skips
if that key is pressed, `A1` if it is not. -/
def key (c : Chip8) : Option Chip8 :=
  let x := c.opcode / 256 % 16
  if c.v x < 16 then
    let pressed := c.key (c.v x) = 1
    if c.opcode % 256 = 0x9E then
      some { c with pc := (c.pc + if pressed then 4 else 2) % 65536 }
    else if c.opcode % 256 = 0xA1 then
      some { c with pc := (c.pc + if ¬ pressed then 4 else 2) % 65536 }
    else none
  else none

/-- The `FX0A` scan loop `for i in 0..0xF`: return the first index in
`[i0, i0 + fuel)` whose key is pressed. -/
def scanKeys (k : Nat → Nat) (i0 : Nat) : Nat → Option Nat
  | 0 => none
  | fuel + 1 => if k i0 = 1 then some i0 else scanKeys k (i0 + 1) fuel

/-- Loop over register indices `offset ∈ [off0, off0 + fuel)` of `FX55`:
store `v[offset]` to memory at `i + offset` (fatal if out of bounds). -/
def storeRegs (v mem : Nat → Nat) (i : Nat) (off0 : Nat) :
    Nat → Option (Nat → Nat)
  | 0 => some mem
  | fuel + 1 =>
    if i + off0 < 4096 then
      storeRegs v (upd mem (i + off0) (v off0)) i (off0 + 1) fuel
    else none

/-- Loop over register indices `offset ∈ [off0, off0 + fuel)` of `FX65`:
load `v[offset]` from memory at `i + offset` (fatal if out of bounds). -/
def loadRegs (mem v : Nat → Nat) (i : Nat) (off0 : Nat) :
    Nat → Option (Nat → Nat)
  | 0 => some v
  | fuel + 1 =>
    if i + off0 < 4096 then
      loadRegs mem (upd v off0 (mem (i + off0))) i (off0 + 1) fuel
    else none

/-- Opcode `FX**` (`Chip8::ex`).  Note the `FX0A` scan loop iterates
`for i in 0..0xF`, i.e. over key indices 0 through 14 only; every branch
ends with the shared `pc += 2` (after `pc -= 2` when `FX0A` found no
key).  Unhandled low bytes are fatal. -/
def ex (c : Chip8) : Option Chip8 :=
  let x := c.opcode / 256 % 16
  let o := c.opcode % 256
  if o = 0x7 then
    some { c with v := upd c.v x c.delayTimer, pc := (c.pc + 2) % 65536 }
  else if o = 0xA then
    match scanKeys c.key 0 0xF with
    | some k => some { c with v := upd c.v x k, pc := (c.pc + 2) % 65536 }
    | none => some { c with pc := ((c.pc + 65536 - 2) % 65536 + 2) % 65536 }
  else if o = 0x15 then
    some { c with delayTimer := c.v x, pc := (c.pc + 2) % 65536 }
  else if o = 0x18 then
    some { c with soundTimer := c.v x, pc := (c.pc + 2) % 65536 }
  else if o = 0x1E then
    some { c with i := (c.i + c.v x) % 65536, pc := (c.pc + 2) % 65536 }
  else if o = 0x29 then
    some { c with i := 5 * c.v x, pc := (c.pc + 2) % 65536 }
  else if o = 0x33 then
    if c.i + 2 < 4096 then
      some { c with
        memory := upd (upd (upd c.memory c.i (c.v x / 100))
                    (c.i + 1) (c.v x / 10 % 10))
                    (c.i + 2) (c.v x % 100 % 10),
        pc := (c.pc + 2) % 65536 }
    else none
  else if o = 0x55 then
    match storeRegs c.v c.memory c.i 0 (x + 1) with
    | some m => some { c with memory := m, pc := (c.pc + 2) % 65536 }
    | none => none
  else if o = 0x65 then
    match loadRegs c.memory c.v c.i 0 (x + 1) with
    | some v2 => some { c with v := v2, pc := (c.pc + 2) % 65536 }
    | none => none
  else none

/-- The big-endian two-byte fetch of `emulate_cycle`. -/
def fetchOp (c : Chip8) : Nat :=
  c.memory c.pc * 256 + c.memory (c.pc + 1)

/-- Dispatch on the top nibble, mirroring the `opcode_fns` table. -/
def dispatch (rand : Nat) (nib : Nat) (c : Chip8) : Option Chip8 :=
  if nib = 0x0 then cls_ret c
  else if nib = 0x1 then jmp c
  else if nib = 0x2 then call c
  else if nib = 0x3 then eb c
  else if nib = 0x4 then neb c
  else if nib = 0x5 then er c
  else if nib = 0x6 then ld c
  else if nib = 0x7 then addb c
  else if nib = 0x8 then alu c
  else if nib = 0x9 then ner c
  else if nib = 0xA then si c
  else if nib = 0xB then jmpo c
  else if nib = 0xC then rng rand c
  else if nib = 0xD then draw c
  else if nib = 0xE then key c
  else if nib = 0xF then ex c
  else none

/-- Cycle driver `Chip8::emulate_cycle`: fetch (fatal if `pc + 1 ≥ 4096`), clear the
draw flag, dispatch on the top nibble, then run the timer bookkeeping:
when `timer_tick = 0` the nonzero timers decrement, and
`timer_tick = (timer_tick + 1) % 5`. -/
def emulateCycle (rand : Nat) (c : Chip8) : Option Chip8 :=
  if c.pc + 1 < 4096 then
    let op := fetchOp c
    let c0 : Chip8 := { c with opcode := op, drawFlag := false }
    match dispatch rand (op / 4096 % 16) c0 with
    | some c1 =>
      some { c1 with
        delayTimer := if c1.timerTick = 0 then
            (if 0 < c1.delayTimer then c1.delayTimer - 1 else c1.delayTimer)
          else c1.delayTimer,
        soundTimer := if c1.timerTick = 0 then
            (if 0 < c1.soundTimer then c1.soundTimer - 1 else c1.soundTimer)
          else c1.soundTimer,
        timerTick := (c1.timerTick + 1) % 5 }
    | none => none
  else none

/-- `n` consecutive cycles; cycle number `k` (0-based) consumes random
byte `f k`.  `none` if any cycle hits a fatal condition. -/
def runN (f : Nat → Nat) : Nat → Chip8 → Option Chip8
  | 0, c => some c
  | n + 1, c =>
    match runN f n c with
    | some s => emulateCycle (f n) s
    | none => none

/-- An opcode writes the delay timer exactly if it is `FX15`. -/
def writesDelay (op : Nat) : Prop :=
  op / 4096 % 16 = 0xF ∧ op % 256 = 0x15

/-- An opcode writes the sound timer exactly if it is `FX18`. -/
def writesSound (op : Nat) : Prop :=
  op / 4096 % 16 = 0xF ∧ op % 256 = 0x18

/-- Number of `k < n` with `(t + k) % 5 = 0`: how often the timer block
fires during `n` cycles that start with `timer_tick = t`. -/
def decCount (t : Nat) : Nat → Nat
  | 0 => 0
  | n + 1 => decCount t n + (if (t + n) % 5 = 0 then 1 else 0)

/-! ### Small helper lemmas about `upd` -/

theorem upd_same (f : Nat → Nat) (i x : Nat) : upd f i x i = x := by
  simp [upd]

theorem upd_other (f : Nat → Nat) (i x j : Nat) (h : j ≠ i) :
    upd f i x j = f j := by
  simp [upd, h]

/-! ### C9: constructor initialization -/

/-- C9 (amended): the constructor in `src/chip8.rs` produces
`pc = 0x200`, the fontset in the first 80 memory bytes, zero elsewhere in
memory, and zeroed registers, address register, stack, stack pointer,
timers, framebuffer and key state; the duplicate constructor in
`src/chip8/mod.rs` initializes identically except that its `pc` is `0`. -/
theorem c9_new_initialization :
    Chip8.new.pc = 0x200 ∧
    (∀ a, a < 80 → Chip8.new.memory a = chip8_fontset.getD a 0) ∧
    (∀ a, 80 ≤ a → Chip8.new.memory a = 0) ∧
    (∀ j, Chip8.new.v j = 0) ∧ Chip8.new.i = 0 ∧
    (∀ j, Chip8.new.stack j = 0) ∧ Chip8.new.sp = 0 ∧
    Chip8.new.delayTimer = 0 ∧ Chip8.new.soundTimer = 0 ∧
    (∀ j, Chip8.new.gfx j = 0) ∧ (∀ j, Chip8.new.key j = 0) ∧
    Chip8.new.opcode = 0 ∧
    Chip8M.new.pc = 0 ∧
    (∀ a, a < 80 → Chip8M.new.memory a = chip8_fontset.getD a 0) ∧
    (∀ a, 80 ≤ a → Chip8M.new.memory a = 0) ∧
    (∀ j, Chip8M.new.v j = 0) ∧ Chip8M.new.i = 0 ∧
    (∀ j, Chip8M.new.stack j = 0) ∧ Chip8M.new.sp = 0 ∧
    Chip8M.new.delayTimer = 0 ∧ Chip8M.new.soundTimer = 0 ∧
    (∀ j, Chip8M.new.gfx j = 0) ∧ (∀ j, Chip8M.new.key j = 0) ∧
    Chip8M.new.opcode = 0 := by
  refine ⟨rfl, fun a ha => ?_, fun a ha => ?_, fun j => rfl, rfl, fun j => rfl,
    rfl, rfl, rfl, fun j => rfl, fun j => rfl, rfl,
    rfl, fun a ha => ?_, fun a ha => ?_, fun j => rfl, rfl, fun j => rfl,
    rfl, rfl, rfl, fun j => rfl, fun j => rfl, rfl⟩
  · simp [Chip8.new, ha]
  · simp [Chip8.new, Nat.not_lt.2 ha]
  · simp [Chip8M.new, ha]
  · simp [Chip8M.new, Nat.not_lt.2 ha]

/-- C9 counterexample: the claim as stated quantifies over every freshly
constructed VM, but the constructor in `src/chip8/mod.rs` leaves the
program counter at 0, not 0x200. -/
theorem c9_new_cex : Chip8M.new.pc ≠ 0x200 := by decide

/-! ### C8: call and return -/

/-- C8: `00EE` with `sp ≥ 1` (and the popped slot in range of the 16-entry
stack) decrements `sp` and sets `pc` to the popped entry plus 2; `00EE`
with `sp = 0` is fatal; `2NNN` (with room on the 16-entry stack) pushes
the current `pc`, increments `sp`, and sets `pc = NNN`. -/
theorem c8_call_ret (c d e : Chip8)
    (h1 : 1 ≤ c.sp) (h2 : c.sp ≤ 16) (h3 : c.opcode % 256 = 0xEE)
    (h4 : d.opcode % 256 = 0xEE) (h5 : d.sp = 0)
    (h6 : e.sp < 16) :
    cls_ret c = some { c with sp := c.sp - 1,
                              pc := (c.stack (c.sp - 1) + 2) % 65536,
                              stack := upd c.stack (c.sp - 1) 0 } ∧
    cls_ret d = none ∧
    call e = some { e with stack := upd e.stack e.sp e.pc,
                           sp := e.sp + 1,
                           pc := e.opcode % 4096 } := by
  refine ⟨?_, ?_, ?_⟩
  · unfold cls_ret
    rw [h3, if_neg (by decide), if_pos rfl, if_neg (by omega),
      if_pos (by omega)]
  · unfold cls_ret
    rw [h4, if_neg (by decide), if_pos rfl, if_pos (by omega)]
  · unfold call
    rw [if_pos h6]

def c8w : Chip8 :=
  { Chip8.new with opcode := 0x2345, stack := fun j => if j = 2 then 0x333 else 0,
                   sp := 3, pc := 0x400 }

def c8w2 : Chip8 := { Chip8.new with opcode := 0x00EE, sp := 0 }

/-- C8 witness: a concrete return with `sp = 3` pops `0x333` and lands at
`0x335`; a concrete return with `sp = 0` is fatal; a concrete call pushes
`0x400` and jumps to `0x345`. -/
theorem c8_call_ret_witness :
    cls_ret { c8w with opcode := 0x00EE } =
      some { { c8w with opcode := 0x00EE } with
             sp := 2, pc := 0x335,
             stack := upd (fun j => if j = 2 then 0x333 else 0) 2 0 } ∧
    cls_ret c8w2 = none ∧
    call c8w = some { c8w with stack := upd c8w.stack 3 0x400,
                               sp := 4, pc := 0x345 } := by
  have h := c8_call_ret { c8w with opcode := 0x00EE } c8w2 c8w
    (by decide) (by decide) (by decide) (by decide) (by decide) (by decide)
  refine ⟨?_, h.2.1, h.2.2⟩
  exact h.1

/-! ### C10: key-skip bounds -/

/-- C10: for `EX9E`/`EXA1` the key array is indexed by the runtime value
of register X; the handler succeeds iff that value is at most 15, and is
fatal whenever it exceeds 15. -/
theorem c10_key_index_bounds (c : Chip8)
    (h : c.opcode % 256 = 0x9E ∨ c.opcode % 256 = 0xA1) :
    ((key c).isSome ↔ c.v (c.opcode / 256 % 16) < 16) ∧
    (16 ≤ c.v (c.opcode / 256 % 16) → key c = none) := by
  by_cases hlt : c.v (c.opcode / 256 % 16) < 16
  · rcases h with h | h <;>
      simp [key, h, hlt]
  · rcases h with h | h <;>
      simp [key, h, hlt]

def c10w : Chip8 :=
  { Chip8.new with opcode := 0xE29E, v := fun j => if j = 2 then 20 else 0 }

/-- C10 witness: a concrete `EX9E` whose register X holds 20 hits the
fatal out-of-bounds branch. -/
theorem c10_key_index_bounds_witness :
    c10w.opcode % 256 = 0x9E ∧ 16 ≤ c10w.v (c10w.opcode / 256 % 16) ∧
    key c10w = none :=
  ⟨by decide, by decide,
    (c10_key_index_bounds c10w (Or.inl (by decide))).2 (by decide)⟩

/-! ### C4: add immediate -/

/-- C4 (amended): `7XNN` sets register X to `(VX + NN) % 256`, wrapping
silently, and leaves `V[0xF]` unmodified whenever `X ≠ 0xF` (when
`X = 0xF` the flag register is itself the destination). -/
theorem c4_addb_wraps (c c2 : Chip8) (hc : addb c = some c2) :
    c2.v (c.opcode / 256 % 16) =
      (c.v (c.opcode / 256 % 16) + c.opcode % 256) % 256 ∧
    (c.opcode / 256 % 16 ≠ 0xF → c2.v 0xF = c.v 0xF) := by
  simp only [addb, Option.some.injEq] at hc
  subst hc
  dsimp only
  constructor
  · exact upd_same _ _ _
  · intro hx
    exact upd_other _ _ _ _ (fun h => hx h.symm)

def c4w : Chip8 :=
  { Chip8.new with opcode := 0x7305, v := fun j => if j = 3 then 252 else 7 }

/-- C4 witness: `7305` with `V3 = 252` wraps to `V3 = 1 = 257 % 256` and
leaves `V[0xF] = 7` untouched. -/
theorem c4_addb_wraps_witness :
    ((addb c4w).getD c4w).v 3 = 1 ∧ ((addb c4w).getD c4w).v 0xF = 7 :=
  ⟨(c4_addb_wraps c4w ((addb c4w).getD c4w) rfl).1,
   (c4_addb_wraps c4w ((addb c4w).getD c4w) rfl).2 (by decide)⟩

def c4x : Chip8 := { Chip8.new with opcode := 0x7F01 }

/-- C4 counterexample: with `X = 0xF`, opcode `7F01` does modify the flag
register (`V[0xF]` goes from 0 to 1), contradicting the claim that `7XNN`
never modifies `V[0xF]`. -/
theorem c4_addb_cex : ((addb c4x).getD c4x).v 0xF ≠ c4x.v 0xF := by decide

/-! ### C3: add with carry -/

/-- C3 (amended): `8XY4`, provided neither X nor Y is `0xF`, sets
`V[0xF] = 1` iff `VX + VY > 255` (else 0) and stores the low byte of the
sum in register X. -/
theorem c3_add_carry (c c2 : Chip8) (hc : alu c = some c2)
    (hk : c.opcode % 16 = 0x4)
    (hx : c.opcode / 256 % 16 ≠ 0xF) (hy : c.opcode / 16 % 16 ≠ 0xF)
    (hvx : c.v (c.opcode / 256 % 16) < 256) :
    c2.v 0xF = (if 255 < c.v (c.opcode / 256 % 16) + c.v (c.opcode / 16 % 16)
      then 1 else 0) ∧
    c2.v (c.opcode / 256 % 16) =
      (c.v (c.opcode / 256 % 16) + c.v (c.opcode / 16 % 16)) % 256 := by
  have hx' : (0xF : Nat) ≠ c.opcode / 256 % 16 := fun h => hx h.symm
  have hcond : (0xFF - c.v (c.opcode / 256 % 16) < c.v (c.opcode / 16 % 16))
      ↔ (255 < c.v (c.opcode / 256 % 16) + c.v (c.opcode / 16 % 16)) := by
    omega
  simp [alu, hk] at hc
  subst hc
  dsimp only
  constructor
  · rw [upd_other _ _ _ _ hx', upd_same]
    simp only [hcond]
  · rw [upd_same, upd_other _ _ _ _ hx, upd_other _ _ _ _ hy]

def c3w : Chip8 :=
  { Chip8.new with opcode := 0x8124,
                   v := fun j => if j = 1 then 200 else if j = 2 then 100 else 0 }

/-- C3 witness: `8124` with `V1 = 200`, `V2 = 100` sets the carry flag
and `V1 = 300 % 256 = 44`. -/
theorem c3_add_carry_witness :
    ((alu c3w).getD c3w).v 0xF = 1 ∧ ((alu c3w).getD c3w).v 1 = 44 :=
  c3_add_carry c3w ((alu c3w).getD c3w) rfl (by decide) (by decide)
    (by decide) (by decide)

def c3x : Chip8 :=
  { Chip8.new with opcode := 0x8F04, v := fun j => if j = 0 then 5 else 0 }

/-- C3 counterexample: `8F04` (destination X = 0xF) with `V[0xF] = 0`,
`V0 = 5`: the final `V[0xF]` is 5, neither the claimed carry value 0 nor
1, because the flag write is clobbered by the subsequent add into the
same register. -/
theorem c3_add_carry_cex :
    ¬ (((alu c3x).getD c3x).v 0xF =
        (if 255 < c3x.v 0xF + c3x.v 0 then 1 else 0) ∧
       ((alu c3x).getD c3x).v 0xF = (c3x.v 0xF + c3x.v 0) % 256) := by
  decide

/-! ### C7: subtract with borrow -/

/-- C7 (amended): `8XY5`, provided neither X nor Y is `0xF`, sets
`V[0xF] = 0` iff `VY > VX` (borrow; else 1) and stores the difference
wrapped modulo 256 in register X. -/
theorem c7_sub_borrow (c c2 : Chip8) (hc : alu c = some c2)
    (hk : c.opcode % 16 = 0x5)
    (hx : c.opcode / 256 % 16 ≠ 0xF) (hy : c.opcode / 16 % 16 ≠ 0xF) :
    c2.v 0xF = (if c.v (c.opcode / 256 % 16) < c.v (c.opcode / 16 % 16)
      then 0 else 1) ∧
    c2.v (c.opcode / 256 % 16) =
      (c.v (c.opcode / 256 % 16) + 256 - c.v (c.opcode / 16 % 16)) % 256 := by
  have hx' : (0xF : Nat) ≠ c.opcode / 256 % 16 := fun h => hx h.symm
  simp [alu, hk] at hc
  subst hc
  dsimp only
  constructor
  · rw [upd_other _ _ _ _ hx', upd_same]
  · rw [upd_same, upd_other _ _ _ _ hx, upd_other _ _ _ _ hy]

def c7w : Chip8 :=
  { Chip8.new with opcode := 0x8125,
                   v := fun j => if j = 1 then 10 else if j = 2 then 20 else 0 }

/-- C7 witness: `8125` with `V1 = 10`, `V2 = 20` borrows:
`V[0xF] = 0` and `V1 = (10 + 256 - 20) % 256 = 246`. -/
theorem c7_sub_borrow_witness :
    ((alu c7w).getD c7w).v 0xF = 0 ∧ ((alu c7w).getD c7w).v 1 = 246 :=
  c7_sub_borrow c7w ((alu c7w).getD c7w) rfl (by decide) (by decide)
    (by decide)

def c7x : Chip8 :=
  { Chip8.new with opcode := 0x80F5,
                   v := fun j => if j = 0 then 5 else if j = 15 then 3 else 0 }

/-- C7 counterexample: `80F5` (Y = 0xF) with `V0 = 5`, `V[0xF] = 3`:
the flag write (1, no borrow) lands in `V[0xF]` before it is read as the
subtrahend, so `V0` becomes `5 - 1 = 4` instead of the claimed
`5 - 3 = 2`. -/
theorem c7_sub_borrow_cex :
    ¬ (((alu c7x).getD c7x).v 0xF =
        (if c7x.v 0 < c7x.v 0xF then 0 else 1) ∧
       ((alu c7x).getD c7x).v 0 = (c7x.v 0 + 256 - c7x.v 0xF) % 256) := by
  decide

/-! ### C1: blocking key read -/

def c1x : Chip8 :=
  { Chip8.new with opcode := 0xF50A, key := fun j => if j = 15 then 1 else 0 }

/-- C1, evaluation at the failing input: key 15 is the only pressed key,
yet `FX0A` (whose scan loop `for i in 0..0xF` covers only keys 0–14)
treats the keypad as idle: the target register stays 0 and the program
counter does not advance, contradicting both the claim (scan keys 0..15,
set `V5 = 15`, advance PC) and the source comment "check all keys". -/
theorem c1_fx0a_misses_key15 :
    c1x.key 15 = 1 ∧ (∀ j, j < 15 → c1x.key j = 0) ∧
    ex c1x = some ((ex c1x).getD c1x) ∧
    ((ex c1x).getD c1x).pc = c1x.pc ∧
    ((ex c1x).getD c1x).v 5 = c1x.v 5 := by
  refine ⟨by decide, by decide, rfl, by decide, by decide⟩

/-! ### C5: timer bookkeeping.
No handler touches `timer_tick`, only `FX15` writes the delay timer and
only `FX18` writes the sound timer; the preservation lemmas below record
this, one per dispatch-table entry. -/

theorem cls_ret_timer (c c2 : Chip8) (hc : cls_ret c = some c2) :
    c2.delayTimer = c.delayTimer ∧ c2.soundTimer = c.soundTimer ∧
      c2.timerTick = c.timerTick := by
  simp only [cls_ret] at hc
  repeat' split at hc
  all_goals first
  | exact Option.noConfusion hc
  | (injection hc with h; subst h; exact ⟨rfl, rfl, rfl⟩)

theorem jmp_timer (c c2 : Chip8) (hc : jmp c = some c2) :
    c2.delayTimer = c.delayTimer ∧ c2.soundTimer = c.soundTimer ∧
      c2.timerTick = c.timerTick := by
  simp only [jmp] at hc
  injection hc with h
  subst h
  exact ⟨rfl, rfl, rfl⟩

theorem call_timer (c c2 : Chip8) (hc : call c = some c2) :
    c2.delayTimer = c.delayTimer ∧ c2.soundTimer = c.soundTimer ∧
      c2.timerTick = c.timerTick := by
  simp only [call] at hc
  repeat' split at hc
  all_goals first
  | exact Option.noConfusion hc
  | (injection hc with h; subst h; exact ⟨rfl, rfl, rfl⟩)

theorem eb_timer (c c2 : Chip8) (hc : eb c = some c2) :
    c2.delayTimer = c.delayTimer ∧ c2.soundTimer = c.soundTimer ∧
      c2.timerTick = c.timerTick := by
  simp only [eb] at hc
  injection hc with h
  subst h
  exact ⟨rfl, rfl, rfl⟩

theorem neb_timer (c c2 : Chip8) (hc : neb c = some c2) :
    c2.delayTimer = c.delayTimer ∧ c2.soundTimer = c.soundTimer ∧
      c2.timerTick = c.timerTick := by
  simp only [neb] at hc
  injection hc with h
  subst h
  exact ⟨rfl, rfl, rfl⟩

theorem er_timer (c c2 : Chip8) (hc : er c = some c2) :
    c2.delayTimer = c.delayTimer ∧ c2.soundTimer = c.soundTimer ∧
      c2.timerTick = c.timerTick := by
  simp only [er] at hc
  injection hc with h
  subst h
  exact ⟨rfl, rfl, rfl⟩

theorem ld_timer (c c2 : Chip8) (hc : ld c = some c2) :
    c2.delayTimer = c.delayTimer ∧ c2.soundTimer = c.soundTimer ∧
      c2.timerTick = c.timerTick := by
  simp only [ld] at hc
  injection hc with h
  subst h
  exact ⟨rfl, rfl, rfl⟩

theorem addb_timer (c c2 : Chip8) (hc : addb c = some c2) :
    c2.delayTimer = c.delayTimer ∧ c2.soundTimer = c.soundTimer ∧
      c2.timerTick = c.timerTick := by
  simp only [addb] at hc
  injection hc with h
  subst h
  exact ⟨rfl, rfl, rfl⟩

theorem alu_timer (c c2 : Chip8) (hc : alu c = some c2) :
    c2.delayTimer = c.delayTimer ∧ c2.soundTimer = c.soundTimer ∧
      c2.timerTick = c.timerTick := by
  simp only [alu] at hc
  repeat' split at hc
  all_goals first
  | exact Option.noConfusion hc
  | (injection hc with h; subst h; exact ⟨rfl, rfl, rfl⟩)

theorem ner_timer (c c2 : Chip8) (hc : ner c = some c2) :
    c2.delayTimer = c.delayTimer ∧ c2.soundTimer = c.soundTimer ∧
      c2.timerTick = c.timerTick := by
  simp only [ner] at hc
  injection hc with h
  subst h
  exact ⟨rfl, rfl, rfl⟩

theorem si_timer (c c2 : Chip8) (hc : si c = some c2) :
    c2.delayTimer = c.delayTimer ∧ c2.soundTimer = c.soundTimer ∧
      c2.timerTick = c.timerTick := by
  simp only [si] at hc
  injection hc with h
  subst h
  exact ⟨rfl, rfl, rfl⟩

theorem jmpo_timer (c c2 : Chip8) (hc : jmpo c = some c2) :
    c2.delayTimer = c.delayTimer ∧ c2.soundTimer = c.soundTimer ∧
      c2.timerTick = c.timerTick := by
  simp only [jmpo] at hc
  injection hc with h
  subst h
  exact ⟨rfl, rfl, rfl⟩

theorem rng_timer (r : Nat) (c c2 : Chip8) (hc : rng r c = some c2) :
    c2.delayTimer = c.delayTimer ∧ c2.soundTimer = c.soundTimer ∧
      c2.timerTick = c.timerTick := by
  simp only [rng] at hc
  injection hc with h
  subst h
  exact ⟨rfl, rfl, rfl⟩

theorem draw_timer (c c2 : Chip8) (hc : draw c = some c2) :
    c2.delayTimer = c.delayTimer ∧ c2.soundTimer = c.soundTimer ∧
      c2.timerTick = c.timerTick := by
  simp only [draw] at hc
  repeat' split at hc
  all_goals first
  | exact Option.noConfusion hc
  | (injection hc with h; subst h; exact ⟨rfl, rfl, rfl⟩)

theorem key_timer (c c2 : Chip8) (hc : key c = some c2) :
    c2.delayTimer = c.delayTimer ∧ c2.soundTimer = c.soundTimer ∧
      c2.timerTick = c.timerTick := by
  simp only [key] at hc
  repeat' split at hc
  all_goals first
  | exact Option.noConfusion hc
  | (injection hc with h; subst h; exact ⟨rfl, rfl, rfl⟩)

theorem ex_timer (c c2 : Chip8) (hc : ex c = some c2) :
    (c.opcode % 256 ≠ 0x15 → c2.delayTimer = c.delayTimer) ∧
    (c.opcode % 256 ≠ 0x18 → c2.soundTimer = c.soundTimer) ∧
    c2.timerTick = c.timerTick := by
  simp only [ex] at hc
  by_cases h7 : c.opcode % 256 = 0x7
  · rw [if_pos h7] at hc
    injection hc with h
    subst h
    exact ⟨fun _ => rfl, fun _ => rfl, rfl⟩
  · rw [if_neg h7] at hc
    by_cases hA : c.opcode % 256 = 0xA
    · rw [if_pos hA] at hc
      split at hc
      all_goals injection hc with h
      all_goals subst h
      all_goals exact ⟨fun _ => rfl, fun _ => rfl, rfl⟩
    · rw [if_neg hA] at hc
      by_cases h15 : c.opcode % 256 = 0x15
      · rw [if_pos h15] at hc
        injection hc with h
        subst h
        exact ⟨fun h2 => absurd h15 h2, fun _ => rfl, rfl⟩
      · rw [if_neg h15] at hc
        by_cases h18 : c.opcode % 256 = 0x18
        · rw [if_pos h18] at hc
          injection hc with h
          subst h
          exact ⟨fun _ => rfl, fun h2 => absurd h18 h2, rfl⟩
        · rw [if_neg h18] at hc
          by_cases h1E : c.opcode % 256 = 0x1E
          · rw [if_pos h1E] at hc
            injection hc with h
            subst h
            exact ⟨fun _ => rfl, fun _ => rfl, rfl⟩
          · rw [if_neg h1E] at hc
            by_cases h29 : c.opcode % 256 = 0x29
            · rw [if_pos h29] at hc
              injection hc with h
              subst h
              exact ⟨fun _ => rfl, fun _ => rfl, rfl⟩
            · rw [if_neg h29] at hc
              by_cases h33 : c.opcode % 256 = 0x33
              · rw [if_pos h33] at hc
                split at hc
                · injection hc with h
                  subst h
                  exact ⟨fun _ => rfl, fun _ => rfl, rfl⟩
                · exact Option.noConfusion hc
              · rw [if_neg h33] at hc
                by_cases h55 : c.opcode % 256 = 0x55
                · rw [if_pos h55] at hc
                  split at hc
                  · injection hc with h
                    subst h
                    exact ⟨fun _ => rfl, fun _ => rfl, rfl⟩
                  · exact Option.noConfusion hc
                · rw [if_neg h55] at hc
                  by_cases h65 : c.opcode % 256 = 0x65
                  · rw [if_pos h65] at hc
                    split at hc
                    · injection hc with h
                      subst h
                      exact ⟨fun _ => rfl, fun _ => rfl, rfl⟩
                    · exact Option.noConfusion hc
                  · rw [if_neg h65] at hc
                    exact Option.noConfusion hc

set_option maxHeartbeats 1000000 in
theorem dispatch_timer (r nib : Nat) (c c2 : Chip8)
    (hc : dispatch r nib c = some c2) :
    (¬ (nib = 0xF ∧ c.opcode % 256 = 0x15) → c2.delayTimer = c.delayTimer) ∧
    (¬ (nib = 0xF ∧ c.opcode % 256 = 0x18) → c2.soundTimer = c.soundTimer) ∧
    c2.timerTick = c.timerTick := by
  rcases Nat.lt_or_ge nib 16 with hlt | hge
  · interval_cases nib <;> simp only [dispatch, reduceIte] at hc
    · obtain ⟨h1, h2, h3⟩ := cls_ret_timer _ _ hc
      exact ⟨fun _ => h1, fun _ => h2, h3⟩
    · obtain ⟨h1, h2, h3⟩ := jmp_timer _ _ hc
      exact ⟨fun _ => h1, fun _ => h2, h3⟩
    · obtain ⟨h1, h2, h3⟩ := call_timer _ _ hc
      exact ⟨fun _ => h1, fun _ => h2, h3⟩
    · obtain ⟨h1, h2, h3⟩ := eb_timer _ _ hc
      exact ⟨fun _ => h1, fun _ => h2, h3⟩
    · obtain ⟨h1, h2, h3⟩ := neb_timer _ _ hc
      exact ⟨fun _ => h1, fun _ => h2, h3⟩
    · obtain ⟨h1, h2, h3⟩ := er_timer _ _ hc
      exact ⟨fun _ => h1, fun _ => h2, h3⟩
    · obtain ⟨h1, h2, h3⟩ := ld_timer _ _ hc
      exact ⟨fun _ => h1, fun _ => h2, h3⟩
    · obtain ⟨h1, h2, h3⟩ := addb_timer _ _ hc
      exact ⟨fun _ => h1, fun _ => h2, h3⟩
    · obtain ⟨h1, h2, h3⟩ := alu_timer _ _ hc
      exact ⟨fun _ => h1, fun _ => h2, h3⟩
    · obtain ⟨h1, h2, h3⟩ := ner_timer _ _ hc
      exact ⟨fun _ => h1, fun _ => h2, h3⟩
    · obtain ⟨h1, h2, h3⟩ := si_timer _ _ hc
      exact ⟨fun _ => h1, fun _ => h2, h3⟩
    · obtain ⟨h1, h2, h3⟩ := jmpo_timer _ _ hc
      exact ⟨fun _ => h1, fun _ => h2, h3⟩
    · obtain ⟨h1, h2, h3⟩ := rng_timer _ _ _ hc
      exact ⟨fun _ => h1, fun _ => h2, h3⟩
    · obtain ⟨h1, h2, h3⟩ := draw_timer _ _ hc
      exact ⟨fun _ => h1, fun _ => h2, h3⟩
    · obtain ⟨h1, h2, h3⟩ := key_timer _ _ hc
      exact ⟨fun _ => h1, fun _ => h2, h3⟩
    · obtain ⟨h1, h2, h3⟩ := ex_timer _ _ hc
      exact ⟨fun hw => h1 (fun he => hw ⟨rfl, he⟩),
        fun hw => h2 (fun he => hw ⟨rfl, he⟩), h3⟩
  · unfold dispatch at hc
    repeat rw [if_neg (by omega)] at hc
    exact Option.noConfusion hc

/-- One cycle performs exactly the guarded timer bookkeeping of
`emulate_cycle` on each timer the fetched opcode does not write, and
always advances the sub-cycle counter: the decrement fires only when the
counter is 0 and the timer is positive, so a zero timer stays zero. -/
theorem cycle_timer (r : Nat) (c c2 : Chip8)
    (hc : emulateCycle r c = some c2) :
    (¬ writesDelay (fetchOp c) →
      c2.delayTimer = (if c.timerTick = 0 then
          (if 0 < c.delayTimer then c.delayTimer - 1 else c.delayTimer)
        else c.delayTimer)) ∧
    (¬ writesSound (fetchOp c) →
      c2.soundTimer = (if c.timerTick = 0 then
          (if 0 < c.soundTimer then c.soundTimer - 1 else c.soundTimer)
        else c.soundTimer)) ∧
    c2.timerTick = (c.timerTick + 1) % 5 := by
  simp only [emulateCycle] at hc
  split at hc
  · split at hc
    · rename_i c1 heq
      injection hc with h
      subst h
      obtain ⟨hd, hs, htk⟩ := dispatch_timer r (fetchOp c / 4096 % 16)
        { c with opcode := fetchOp c, drawFlag := false } c1 heq
      dsimp only at hd hs htk ⊢
      refine ⟨fun hw => ?_, fun hw => ?_, by rw [htk]⟩
      · simp only [writesDelay] at hw
        rw [hd hw, htk]
      · simp only [writesSound] at hw
        rw [hs hw, htk]
    · exact Option.noConfusion hc
  · exact Option.noConfusion hc

/-- Delay timer and tick across an `n`-cycle run that never executes
`FX15`: the timer loses one unit per tick event, floored at zero. -/
theorem run_timer (f : Nat → Nat) (n : Nat) (c c2 : Chip8)
    (ht : c.timerTick < 5)
    (hc : runN f n c = some c2)
    (hw : ∀ k, k < n → ∀ s, runN f k c = some s → ¬ writesDelay (fetchOp s)) :
    c2.delayTimer = c.delayTimer - min c.delayTimer (decCount c.timerTick n) ∧
    c2.timerTick = (c.timerTick + n) % 5 := by
  induction n generalizing c2 with
  | zero =>
    injection hc with h
    subst h
    refine ⟨?_, ?_⟩ <;> simp [decCount] <;> omega
  | succ n ih =>
    simp only [runN] at hc
    split at hc
    · rename_i s heq
      obtain ⟨hd, htk⟩ := ih s heq (fun k hk s2 hs2 => hw k (by omega) s2 hs2)
      obtain ⟨hd2f, -, ht2⟩ := cycle_timer (f n) s c2 hc
      have hd2 := hd2f (hw n (by omega) s heq)
      rw [hd, htk] at hd2
      rw [htk] at ht2
      constructor
      · rw [hd2]
        simp only [decCount]
        split_ifs <;> omega
      · rw [ht2]
        omega
    · exact Option.noConfusion hc

theorem decCount_add_five (t m : Nat) :
    decCount t (m + 5) = decCount t m + 1 := by
  show decCount t (m + 1 + 1 + 1 + 1 + 1) = decCount t m + 1
  simp only [decCount]
  split_ifs <;> omega

theorem decCount_mono (t m n : Nat) (h : m ≤ n) :
    decCount t m ≤ decCount t n := by
  induction n with
  | zero =>
    have hm : m = 0 := by omega
    subst hm
    exact Nat.le_refl _
  | succ n ih =>
    rcases Nat.eq_or_lt_of_le h with rfl | hlt
    · exact Nat.le_refl _
    · have := ih (by omega)
      simp only [decCount]
      omega

theorem decCount_reach (t D : Nat) (ht : t < 5) (hD : 0 < D) :
    decCount t (5 * (D - 1) + (if t = 0 then 1 else 6 - t)) = D := by
  induction D with
  | zero => omega
  | succ D ih =>
    rcases Nat.eq_zero_or_pos D with rfl | hpos
    · interval_cases t <;> decide
    · have harith : 5 * (D + 1 - 1) + (if t = 0 then 1 else 6 - t) =
          (5 * (D - 1) + (if t = 0 then 1 else 6 - t)) + 5 := by
        split_ifs <;> omega
      rw [harith, decCount_add_five, ih hpos]

theorem decCount_before (t D : Nat) (ht : t < 5) (hD : 0 < D) :
    decCount t (5 * (D - 1) + (if t = 0 then 1 else 6 - t) - 1) = D - 1 := by
  induction D with
  | zero => omega
  | succ D ih =>
    rcases Nat.eq_zero_or_pos D with rfl | hpos
    · interval_cases t <;> decide
    · have harith : 5 * (D + 1 - 1) + (if t = 0 then 1 else 6 - t) - 1 =
          (5 * (D - 1) + (if t = 0 then 1 else 6 - t) - 1) + 5 := by
        split_ifs <;> omega
      rw [harith, decCount_add_five, ih hpos]
      omega

instance (op : Nat) : Decidable (writesDelay op) :=
  inferInstanceAs (Decidable (op / 4096 % 16 = 0xF ∧ op % 256 = 0x15))

instance (op : Nat) : Decidable (writesSound op) :=
  inferInstanceAs (Decidable (op / 4096 % 16 = 0xF ∧ op % 256 = 0x18))

/-- C5 (amended): across a run of cycles none of which executes `FX15`,
a delay timer of `D > 0` with sub-cycle counter `t < 5` first reaches 0
after exactly `5*(D-1) + s` cycles, where `s = 1` if `t = 0` and
`s = 6 - t` otherwise (so exactly `D × 5` cycles when `t = 1`): the
timer is still positive at every earlier point of the run and is 0 from
that point on — it never decrements below 0.  Likewise the sound timer
never decrements below 0: at every cycle of the run that does not
execute `FX18`, it follows the guarded decrement (minus one only when
the sub-cycle counter reads 0 and the timer is positive, so a zero
sound timer stays zero). -/
theorem c5_delay_timer (f : Nat → Nat) (n : Nat) (c c2 : Chip8)
    (ht : c.timerTick < 5) (hD : 0 < c.delayTimer)
    (hc : runN f n c = some c2)
    (hw : ∀ k, k < n → ∀ s, runN f k c = some s → ¬ writesDelay (fetchOp s)) :
    (n < 5 * (c.delayTimer - 1) +
        (if c.timerTick = 0 then 1 else 6 - c.timerTick) →
      0 < c2.delayTimer) ∧
    (5 * (c.delayTimer - 1) +
        (if c.timerTick = 0 then 1 else 6 - c.timerTick) ≤ n →
      c2.delayTimer = 0) ∧
    (∀ k s s2, runN f k c = some s → emulateCycle (f k) s = some s2 →
      ¬ writesSound (fetchOp s) →
      s2.soundTimer = (if s.timerTick = 0 then
          (if 0 < s.soundTimer then s.soundTimer - 1 else s.soundTimer)
        else s.soundTimer)) := by
  obtain ⟨hd, -⟩ := run_timer f n c c2 ht hc hw
  have hbefore := decCount_before c.timerTick c.delayTimer ht hD
  have hreach := decCount_reach c.timerTick c.delayTimer ht hD
  refine ⟨?_, ?_, ?_⟩
  · intro hn
    have hmono := decCount_mono c.timerTick n
      (5 * (c.delayTimer - 1) +
        (if c.timerTick = 0 then 1 else 6 - c.timerTick) - 1) (by omega)
    omega
  · intro hn
    have hmono := decCount_mono c.timerTick
      (5 * (c.delayTimer - 1) +
        (if c.timerTick = 0 then 1 else 6 - c.timerTick)) n hn
    omega
  · intro k s s2 hrun hcyc hws
    exact (cycle_timer (f k) s s2 hcyc).2.1 hws

def c5w : Chip8 :=
  { Chip8.new with memory := fun a => if a = 0x200 then 0x12 else 0,
                   delayTimer := 2, timerTick := 1 }

/-- C5 witness: a VM looping on `jmp 0x200` with delay timer 2 and
sub-cycle counter 1 still has a positive delay timer after 9 cycles,
reaches 0 after exactly `2 × 5 = 10` cycles, and its zero sound timer
stays zero across the first cycle of the run. -/
theorem c5_delay_timer_witness :
    0 < ((runN (fun _ => 0) 9 c5w).getD c5w).delayTimer ∧
    ((runN (fun _ => 0) 10 c5w).getD c5w).delayTimer = 0 ∧
    ((emulateCycle 0 c5w).getD c5w).soundTimer = 0 := by
  refine ⟨?_, ?_, ?_⟩
  · exact (c5_delay_timer (fun _ => 0) 9 c5w
      ((runN (fun _ => 0) 9 c5w).getD c5w) (by decide) (by decide) rfl
      (fun k hk s hs => by
        interval_cases k <;> (injection hs with h; subst h; decide))).1
      (by decide)
  · exact (c5_delay_timer (fun _ => 0) 10 c5w
      ((runN (fun _ => 0) 10 c5w).getD c5w) (by decide) (by decide) rfl
      (fun k hk s hs => by
        interval_cases k <;> (injection hs with h; subst h; decide))).2.1
      (by decide)
  · exact (c5_delay_timer (fun _ => 0) 10 c5w
      ((runN (fun _ => 0) 10 c5w).getD c5w) (by decide) (by decide) rfl
      (fun k hk s hs => by
        interval_cases k <;> (injection hs with h; subst h; decide))).2.2
      0 c5w ((emulateCycle 0 c5w).getD c5w) rfl rfl (by decide)

def c5x : Chip8 :=
  { Chip8.new with memory := fun a => if a = 0x200 then 0x12 else 0,
                   delayTimer := 1, timerTick := 0 }

/-- C5 counterexample: from a fresh VM's sub-cycle counter 0, a delay
timer of `D = 1` reaches 0 after a single cycle of a run that never
writes the delay timer — sooner than the `D × 5 = 5` cycles the claim
requires. -/
theorem c5_delay_timer_cex :
    c5x.delayTimer = 1 ∧ c5x.timerTick = 0 ∧
    ¬ writesDelay (fetchOp c5x) ∧
    ((runN (fun _ => 0) 1 c5x).getD c5x).delayTimer = 0 ∧
    (1 : Nat) ≠ 5 * c5x.delayTimer := by
  refine ⟨rfl, rfl, by decide, by decide, by decide⟩

/-! ### C2/C6: characterization of the draw loops.
`colHit`/`rowHit` decide whether some set sprite bit targets pixel `q`;
`colVf`/`rowVf` decide whether some set sprite bit targets a currently
set pixel of `g` (the collision condition). -/

def colHit (pixel vx vy row p0 f q : Nat) : Bool :=
  match f with
  | 0 => false
  | f + 1 =>
    (decide (pixel &&& (0x80 >>> p0) ≠ 0) &&
      decide (64 * ((vy + row) % 32) + (vx + p0) % 64 = q)) ||
    colHit pixel vx vy row (p0 + 1) f q

def colVf (pixel vx vy row p0 f : Nat) (g : Nat → Nat) : Bool :=
  match f with
  | 0 => false
  | f + 1 =>
    (decide (pixel &&& (0x80 >>> p0) ≠ 0) &&
      decide (g (64 * ((vy + row) % 32) + (vx + p0) % 64) = 1)) ||
    colVf pixel vx vy row (p0 + 1) f g

def rowHit (mem : Nat → Nat) (i vx vy row0 f q : Nat) : Bool :=
  match f with
  | 0 => false
  | f + 1 =>
    colHit (mem (i + row0)) vx vy row0 0 8 q ||
    rowHit mem i vx vy (row0 + 1) f q

def rowVf (mem : Nat → Nat) (i vx vy row0 f : Nat) (g : Nat → Nat) : Bool :=
  match f with
  | 0 => false
  | f + 1 =>
    colVf (mem (i + row0)) vx vy row0 0 8 g ||
    rowVf mem i vx vy (row0 + 1) f g

theorem colHit_iff (pixel vx vy row : Nat) :
    ∀ f p0 q, colHit pixel vx vy row p0 f q = true ↔
      ∃ p, p0 ≤ p ∧ p < p0 + f ∧ pixel &&& (0x80 >>> p) ≠ 0 ∧
        64 * ((vy + row) % 32) + (vx + p) % 64 = q := by
  intro f
  induction f with
  | zero =>
    intro p0 q
    simp only [colHit]
    constructor
    · intro h
      exact absurd h (by simp)
    · rintro ⟨p, h1, h2, -, -⟩
      omega
  | succ f ih =>
    intro p0 q
    simp only [colHit, Bool.or_eq_true, Bool.and_eq_true, decide_eq_true_eq]
    constructor
    · rintro (⟨hb, hoff⟩ | hrest)
      · exact ⟨p0, Nat.le_refl _, by omega, hb, hoff⟩
      · obtain ⟨p, h1, h2, h3, h4⟩ := (ih (p0 + 1) q).mp hrest
        exact ⟨p, by omega, by omega, h3, h4⟩
    · rintro ⟨p, h1, h2, h3, h4⟩
      rcases Nat.eq_or_lt_of_le h1 with rfl | hlt
      · exact Or.inl ⟨h3, h4⟩
      · exact Or.inr ((ih (p0 + 1) q).mpr ⟨p, by omega, by omega, h3, h4⟩)

theorem colVf_iff (pixel vx vy row : Nat) (g : Nat → Nat) :
    ∀ f p0, colVf pixel vx vy row p0 f g = true ↔
      ∃ p, p0 ≤ p ∧ p < p0 + f ∧ pixel &&& (0x80 >>> p) ≠ 0 ∧
        g (64 * ((vy + row) % 32) + (vx + p) % 64) = 1 := by
  intro f
  induction f with
  | zero =>
    intro p0
    simp only [colVf]
    constructor
    · intro h
      exact absurd h (by simp)
    · rintro ⟨p, h1, h2, -, -⟩
      omega
  | succ f ih =>
    intro p0
    simp only [colVf, Bool.or_eq_true, Bool.and_eq_true, decide_eq_true_eq]
    constructor
    · rintro (⟨hb, hone⟩ | hrest)
      · exact ⟨p0, Nat.le_refl _, by omega, hb, hone⟩
      · obtain ⟨p, h1, h2, h3, h4⟩ := (ih (p0 + 1)).mp hrest
        exact ⟨p, by omega, by omega, h3, h4⟩
    · rintro ⟨p, h1, h2, h3, h4⟩
      rcases Nat.eq_or_lt_of_le h1 with rfl | hlt
      · exact Or.inl ⟨h3, h4⟩
      · exact Or.inr ((ih (p0 + 1)).mpr ⟨p, by omega, by omega, h3, h4⟩)

theorem colHit_false (pixel vx vy row : Nat) (f p0 q : Nat)
    (hno : ∀ p, p0 ≤ p → p < p0 + f →
      64 * ((vy + row) % 32) + (vx + p) % 64 ≠ q) :
    colHit pixel vx vy row p0 f q = false := by
  refine Bool.eq_false_iff.mpr (fun h => ?_)
  obtain ⟨p, h1, h2, -, h4⟩ := (colHit_iff pixel vx vy row f p0 q).mp h
  exact hno p h1 h2 h4

theorem colVf_congr (pixel vx vy row : Nat) :
    ∀ f p0 (g1 g2 : Nat → Nat),
      (∀ p, p0 ≤ p → p < p0 + f →
        g1 (64 * ((vy + row) % 32) + (vx + p) % 64) =
        g2 (64 * ((vy + row) % 32) + (vx + p) % 64)) →
      colVf pixel vx vy row p0 f g1 = colVf pixel vx vy row p0 f g2 := by
  intro f
  induction f with
  | zero =>
    intro p0 g1 g2 hag
    simp [colVf]
  | succ f ih =>
    intro p0 g1 g2 hag
    simp only [colVf]
    rw [hag p0 (Nat.le_refl _) (by omega),
      ih (p0 + 1) g1 g2 (fun p hp1 hp2 => hag p (by omega) (by omega))]

theorem drawCols_gfx (pixel vx vy row q : Nat) :
    ∀ f p0 (g : Nat → Nat) (vf : Nat), p0 + f ≤ 8 →
      (drawCols pixel vx vy row p0 f g vf).1 q =
        (if colHit pixel vx vy row p0 f q then (if g q = 1 then 0 else 1)
         else g q) := by
  intro f
  induction f with
  | zero =>
    intro p0 g vf h
    simp [drawCols, colHit]
  | succ f ih =>
    intro p0 g vf h
    by_cases hb : pixel &&& (0x80 >>> p0) ≠ 0
    · by_cases hg : g (64 * ((vy + row) % 32) + (vx + p0) % 64) = 1
      · have hcall : drawCols pixel vx vy row p0 (f + 1) g vf =
            drawCols pixel vx vy row (p0 + 1) f
              (upd g (64 * ((vy + row) % 32) + (vx + p0) % 64) 0) 1 := by
          simp only [drawCols]
          rw [if_pos hb, if_pos hg]
        rw [hcall, ih (p0 + 1) _ _ (by omega)]
        by_cases hq : q = 64 * ((vy + row) % 32) + (vx + p0) % 64
        · subst hq
          have h1 : colHit pixel vx vy row (p0 + 1) f
              (64 * ((vy + row) % 32) + (vx + p0) % 64) = false :=
            colHit_false _ _ _ _ _ _ _ (fun p hp1 hp2 heq => by omega)
          have h2 : colHit pixel vx vy row p0 (f + 1)
              (64 * ((vy + row) % 32) + (vx + p0) % 64) = true := by
            simp [colHit, hb]
          rw [h1, h2]
          simp [upd, hg]
        · have h3 : ¬ (64 * ((vy + row) % 32) + (vx + p0) % 64 = q) :=
            fun hh => hq hh.symm
          rw [upd_other _ _ _ _ hq]
          have h4 : colHit pixel vx vy row p0 (f + 1) q =
              colHit pixel vx vy row (p0 + 1) f q := by
            simp [colHit, h3]
          rw [h4]
      · have hcall : drawCols pixel vx vy row p0 (f + 1) g vf =
            drawCols pixel vx vy row (p0 + 1) f
              (upd g (64 * ((vy + row) % 32) + (vx + p0) % 64) 1) vf := by
          simp only [drawCols]
          rw [if_pos hb, if_neg hg]
        rw [hcall, ih (p0 + 1) _ _ (by omega)]
        by_cases hq : q = 64 * ((vy + row) % 32) + (vx + p0) % 64
        · subst hq
          have h1 : colHit pixel vx vy row (p0 + 1) f
              (64 * ((vy + row) % 32) + (vx + p0) % 64) = false :=
            colHit_false _ _ _ _ _ _ _ (fun p hp1 hp2 heq => by omega)
          have h2 : colHit pixel vx vy row p0 (f + 1)
              (64 * ((vy + row) % 32) + (vx + p0) % 64) = true := by
            simp [colHit, hb]
          rw [h1, h2]
          simp [upd, hg]
        · have h3 : ¬ (64 * ((vy + row) % 32) + (vx + p0) % 64 = q) :=
            fun hh => hq hh.symm
          rw [upd_other _ _ _ _ hq]
          have h4 : colHit pixel vx vy row p0 (f + 1) q =
              colHit pixel vx vy row (p0 + 1) f q := by
            simp [colHit, h3]
          rw [h4]
    · have hcall : drawCols pixel vx vy row p0 (f + 1) g vf =
          drawCols pixel vx vy row (p0 + 1) f g vf := by
        simp only [drawCols]
        rw [if_neg hb]
      rw [hcall, ih (p0 + 1) _ _ (by omega)]
      have h4 : colHit pixel vx vy row p0 (f + 1) q =
          colHit pixel vx vy row (p0 + 1) f q := by
        simp [colHit, hb]
      rw [h4]

theorem drawCols_vf (pixel vx vy row : Nat) :
    ∀ f p0 (g : Nat → Nat) (vf : Nat), p0 + f ≤ 8 →
      (drawCols pixel vx vy row p0 f g vf).2 =
        (if colVf pixel vx vy row p0 f g then 1 else vf) := by
  intro f
  induction f with
  | zero =>
    intro p0 g vf h
    simp [drawCols, colVf]
  | succ f ih =>
    intro p0 g vf h
    by_cases hb : pixel &&& (0x80 >>> p0) ≠ 0
    · by_cases hg : g (64 * ((vy + row) % 32) + (vx + p0) % 64) = 1
      · have hcall : drawCols pixel vx vy row p0 (f + 1) g vf =
            drawCols pixel vx vy row (p0 + 1) f
              (upd g (64 * ((vy + row) % 32) + (vx + p0) % 64) 0) 1 := by
          simp only [drawCols]
          rw [if_pos hb, if_pos hg]
        rw [hcall, ih (p0 + 1) _ _ (by omega)]
        have h2 : colVf pixel vx vy row p0 (f + 1) g = true := by
          simp [colVf, hb, hg]
        rw [h2]
        split <;> rfl
      · have hcall : drawCols pixel vx vy row p0 (f + 1) g vf =
            drawCols pixel vx vy row (p0 + 1) f
              (upd g (64 * ((vy + row) % 32) + (vx + p0) % 64) 1) vf := by
          simp only [drawCols]
          rw [if_pos hb, if_neg hg]
        rw [hcall, ih (p0 + 1) _ _ (by omega)]
        have hcong : colVf pixel vx vy row (p0 + 1) f
            (upd g (64 * ((vy + row) % 32) + (vx + p0) % 64) 1) =
            colVf pixel vx vy row (p0 + 1) f g :=
          colVf_congr _ _ _ _ _ _ _ _ (fun p hp1 hp2 =>
            upd_other _ _ _ _ (fun heq => by omega))
        rw [hcong]
        have h2 : colVf pixel vx vy row p0 (f + 1) g =
            colVf pixel vx vy row (p0 + 1) f g := by
          simp [colVf, hg]
        rw [h2]
    · have hcall : drawCols pixel vx vy row p0 (f + 1) g vf =
          drawCols pixel vx vy row (p0 + 1) f g vf := by
        simp only [drawCols]
        rw [if_neg hb]
      rw [hcall, ih (p0 + 1) _ _ (by omega)]
      have h2 : colVf pixel vx vy row p0 (f + 1) g =
          colVf pixel vx vy row (p0 + 1) f g := by
        simp [colVf, hb]
      rw [h2]

theorem rowHit_iff (mem : Nat → Nat) (i vx vy : Nat) :
    ∀ f row0 q, rowHit mem i vx vy row0 f q = true ↔
      ∃ r, row0 ≤ r ∧ r < row0 + f ∧
        colHit (mem (i + r)) vx vy r 0 8 q = true := by
  intro f
  induction f with
  | zero =>
    intro row0 q
    simp only [rowHit]
    constructor
    · intro h
      exact absurd h (by simp)
    · rintro ⟨r, h1, h2, -⟩
      omega
  | succ f ih =>
    intro row0 q
    simp only [rowHit, Bool.or_eq_true]
    constructor
    · rintro (hcol | hrest)
      · exact ⟨row0, Nat.le_refl _, by omega, hcol⟩
      · obtain ⟨r, h1, h2, h3⟩ := (ih (row0 + 1) q).mp hrest
        exact ⟨r, by omega, by omega, h3⟩
    · rintro ⟨r, h1, h2, h3⟩
      rcases Nat.eq_or_lt_of_le h1 with rfl | hlt
      · exact Or.inl h3
      · exact Or.inr ((ih (row0 + 1) q).mpr ⟨r, by omega, by omega, h3⟩)

theorem rowVf_iff (mem : Nat → Nat) (i vx vy : Nat) (g : Nat → Nat) :
    ∀ f row0, rowVf mem i vx vy row0 f g = true ↔
      ∃ r, row0 ≤ r ∧ r < row0 + f ∧
        colVf (mem (i + r)) vx vy r 0 8 g = true := by
  intro f
  induction f with
  | zero =>
    intro row0
    simp only [rowVf]
    constructor
    · intro h
      exact absurd h (by simp)
    · rintro ⟨r, h1, h2, -⟩
      omega
  | succ f ih =>
    intro row0
    simp only [rowVf, Bool.or_eq_true]
    constructor
    · rintro (hcol | hrest)
      · exact ⟨row0, Nat.le_refl _, by omega, hcol⟩
      · obtain ⟨r, h1, h2, h3⟩ := (ih (row0 + 1)).mp hrest
        exact ⟨r, by omega, by omega, h3⟩
    · rintro ⟨r, h1, h2, h3⟩
      rcases Nat.eq_or_lt_of_le h1 with rfl | hlt
      · exact Or.inl h3
      · exact Or.inr ((ih (row0 + 1)).mpr ⟨r, by omega, by omega, h3⟩)

theorem rowVf_congr (mem : Nat → Nat) (i vx vy : Nat) :
    ∀ f row0 (g1 g2 : Nat → Nat),
      (∀ r p, row0 ≤ r → r < row0 + f → p < 8 →
        g1 (64 * ((vy + r) % 32) + (vx + p) % 64) =
        g2 (64 * ((vy + r) % 32) + (vx + p) % 64)) →
      rowVf mem i vx vy row0 f g1 = rowVf mem i vx vy row0 f g2 := by
  intro f
  induction f with
  | zero =>
    intro row0 g1 g2 hag
    simp [rowVf]
  | succ f ih =>
    intro row0 g1 g2 hag
    simp only [rowVf]
    rw [colVf_congr (mem (i + row0)) vx vy row0 8 0 g1 g2
        (fun p hp1 hp2 => hag row0 p (Nat.le_refl _) (by omega) (by omega)),
      ih (row0 + 1) g1 g2
        (fun r p hr1 hr2 hp => hag r p (by omega) (by omega) hp)]

theorem drawRows_bounds (mem : Nat → Nat) (i vx vy : Nat) :
    ∀ f row0 (g : Nat → Nat) (vf : Nat) s,
      drawRows mem i vx vy row0 f g vf = some s →
      ∀ r, row0 ≤ r → r < row0 + f → i + r < 4096 := by
  intro f
  induction f with
  | zero =>
    intro row0 g vf s hs r h1 h2
    omega
  | succ f ih =>
    intro row0 g vf s hs r h1 h2
    simp only [drawRows] at hs
    split at hs
    · rcases Nat.eq_or_lt_of_le h1 with rfl | hlt
      · assumption
      · exact ih (row0 + 1) _ _ s hs r (by omega) (by omega)
    · exact Option.noConfusion hs

theorem drawRows_spec (mem : Nat → Nat) (i vx vy : Nat) :
    ∀ f row0 (g : Nat → Nat) (vf : Nat), row0 + f ≤ 32 →
      (∀ r, row0 ≤ r → r < row0 + f → i + r < 4096) →
      drawRows mem i vx vy row0 f g vf =
        some (fun q => if rowHit mem i vx vy row0 f q then
            (if g q = 1 then 0 else 1) else g q,
          if rowVf mem i vx vy row0 f g then 1 else vf) := by
  intro f
  induction f with
  | zero =>
    intro row0 g vf h1 h2
    simp [drawRows, rowHit, rowVf]
  | succ f ih =>
    intro row0 g vf h1 h2
    simp only [drawRows]
    rw [if_pos (h2 row0 (Nat.le_refl _) (by omega))]
    have hG : (drawCols (mem (i + row0)) vx vy row0 0 8 g vf).1 =
        fun q => if colHit (mem (i + row0)) vx vy row0 0 8 q then
          (if g q = 1 then 0 else 1) else g q :=
      funext fun q => drawCols_gfx _ _ _ _ _ 8 0 g vf (by omega)
    have hV : (drawCols (mem (i + row0)) vx vy row0 0 8 g vf).2 =
        (if colVf (mem (i + row0)) vx vy row0 0 8 g then 1 else vf) :=
      drawCols_vf _ _ _ _ 8 0 g vf (by omega)
    rw [hG, hV,
      ih (row0 + 1) _ _ (by omega) (fun r hr1 hr2 => h2 r (by omega) (by omega))]
    refine congrArg some (Prod.ext ?_ ?_)
    · funext q
      dsimp only
      by_cases hA : colHit (mem (i + row0)) vx vy row0 0 8 q = true
      · have hB : rowHit mem i vx vy (row0 + 1) f q = false := by
          refine Bool.eq_false_iff.mpr (fun hB => ?_)
          obtain ⟨r, hr1, hr2, hcol⟩ := (rowHit_iff mem i vx vy f (row0 + 1) q).mp hB
          obtain ⟨p, hp1, hp2, -, hp4⟩ :=
            (colHit_iff (mem (i + r)) vx vy r 8 0 q).mp hcol
          obtain ⟨p2, hq1, hq2, -, hq4⟩ :=
            (colHit_iff (mem (i + row0)) vx vy row0 8 0 q).mp hA
          omega
        have hAll : rowHit mem i vx vy row0 (f + 1) q = true := by
          simp [rowHit, hA]
        simp [hA, hB, hAll]
      · have hA2 : colHit (mem (i + row0)) vx vy row0 0 8 q = false :=
          Bool.eq_false_iff.mpr hA
        have hEq : rowHit mem i vx vy row0 (f + 1) q =
            rowHit mem i vx vy (row0 + 1) f q := by
          simp [rowHit, hA2]
        simp [hA2, hEq]
    · dsimp only
      have hcong : rowVf mem i vx vy (row0 + 1) f
          (fun q => if colHit (mem (i + row0)) vx vy row0 0 8 q then
            (if g q = 1 then 0 else 1) else g q) =
          rowVf mem i vx vy (row0 + 1) f g := by
        refine rowVf_congr mem i vx vy f (row0 + 1) _ g (fun r p hr1 hr2 hp => ?_)
        have hmiss : colHit (mem (i + row0)) vx vy row0 0 8
            (64 * ((vy + r) % 32) + (vx + p) % 64) = false :=
          colHit_false _ _ _ _ _ _ _ (fun p2 hp1 hp2 heq => by omega)
        simp [hmiss]
      rw [hcong]
      have hsum : rowVf mem i vx vy row0 (f + 1) g =
          (colVf (mem (i + row0)) vx vy row0 0 8 g ||
            rowVf mem i vx vy (row0 + 1) f g) := by
        simp [rowVf]
      rw [hsum]
      cases hx : colVf (mem (i + row0)) vx vy row0 0 8 g <;>
        cases hy : rowVf mem i vx vy (row0 + 1) f g <;> simp

/-- Master characterization of `Chip8::draw`: when it succeeds, the new
framebuffer toggles exactly the pixels targeted by set sprite bits (at
coordinates wrapped per pixel), `v[0xF]` records whether any targeted
pixel was set, and `pc` advances by 2. -/
theorem draw_spec (c c2 : Chip8) (hc : draw c = some c2) :
    c2 = { c with
      gfx := fun q => if rowHit c.memory c.i (c.v (c.opcode / 256 % 16))
          (c.v (c.opcode / 16 % 16)) 0 (c.opcode % 16) q then
          (if c.gfx q = 1 then 0 else 1) else c.gfx q,
      v := upd c.v 0xF (if rowVf c.memory c.i (c.v (c.opcode / 256 % 16))
          (c.v (c.opcode / 16 % 16)) 0 (c.opcode % 16) c.gfx then 1 else 0),
      drawFlag := true, pc := (c.pc + 2) % 65536 } := by
  simp only [draw] at hc
  split at hc
  · rename_i s heq
    have hb := drawRows_bounds c.memory c.i (c.v (c.opcode / 256 % 16))
      (c.v (c.opcode / 16 % 16)) (c.opcode % 16) 0 c.gfx 0 s heq
    rw [drawRows_spec c.memory c.i (c.v (c.opcode / 256 % 16))
      (c.v (c.opcode / 16 % 16)) (c.opcode % 16) 0 c.gfx 0 (by omega)
      (fun r h1 h2 => hb r h1 h2)] at heq
    injection heq with heq2
    subst heq2
    injection hc with h
    subst h
    rfl
  · exact Option.noConfusion hc

/-- C2: a successful `DXYN` (on a 0/1-valued framebuffer) XORs each set
sprite bit into the framebuffer at `((VX + p) % 64, (VY + r) % 32)`,
wrapping each coordinate independently per pixel; pixels not targeted by
a set bit — in particular every index outside the 64×32 grid — are
untouched; and `V[0xF]` ends 1 iff some targeted pixel was set before
the draw (else 0). -/
theorem c2_draw (c c2 : Chip8) (x y height vx vy : Nat)
    (hxe : x = c.opcode / 256 % 16) (hye : y = c.opcode / 16 % 16)
    (hhe : height = c.opcode % 16) (hvxe : vx = c.v x) (hvye : vy = c.v y)
    (hc : draw c = some c2) (hgfx : ∀ q, c.gfx q ≤ 1) :
    (∀ r, r < height → ∀ p, p < 8 →
      c.memory (c.i + r) &&& (0x80 >>> p) ≠ 0 →
      c2.gfx (64 * ((vy + r) % 32) + (vx + p) % 64) =
        (c.gfx (64 * ((vy + r) % 32) + (vx + p) % 64) + 1) % 2) ∧
    (∀ q, (∀ r, r < height → ∀ p, p < 8 →
        c.memory (c.i + r) &&& (0x80 >>> p) ≠ 0 →
        64 * ((vy + r) % 32) + (vx + p) % 64 ≠ q) →
      c2.gfx q = c.gfx q) ∧
    (∀ q, 2048 ≤ q → c2.gfx q = c.gfx q) ∧
    c2.v 0xF ≤ 1 ∧
    (c2.v 0xF = 1 ↔ ∃ r, r < height ∧ ∃ p, p < 8 ∧
      c.memory (c.i + r) &&& (0x80 >>> p) ≠ 0 ∧
      c.gfx (64 * ((vy + r) % 32) + (vx + p) % 64) = 1) := by
  subst hxe hye hhe hvxe hvye
  have hs := draw_spec c c2 hc
  subst hs
  refine ⟨?_, ?_, ?_, ?_, ?_⟩
  · intro r hr p hp hbit
    have hhit : rowHit c.memory c.i (c.v (c.opcode / 256 % 16))
        (c.v (c.opcode / 16 % 16)) 0 (c.opcode % 16)
        (64 * ((c.v (c.opcode / 16 % 16) + r) % 32) +
          (c.v (c.opcode / 256 % 16) + p) % 64) = true :=
      (rowHit_iff _ _ _ _ _ _ _).mpr ⟨r, by omega, by omega,
        (colHit_iff _ _ _ _ _ _ _).mpr ⟨p, by omega, by omega, hbit, rfl⟩⟩
    have hle := hgfx (64 * ((c.v (c.opcode / 16 % 16) + r) % 32) +
      (c.v (c.opcode / 256 % 16) + p) % 64)
    dsimp only
    rw [hhit]
    simp only [if_true]
    split_ifs <;> omega
  · intro q hq
    have hmiss : rowHit c.memory c.i (c.v (c.opcode / 256 % 16))
        (c.v (c.opcode / 16 % 16)) 0 (c.opcode % 16) q = false := by
      refine Bool.eq_false_iff.mpr (fun hB => ?_)
      obtain ⟨r, h1, h2, hcol⟩ := (rowHit_iff _ _ _ _ _ _ _).mp hB
      obtain ⟨p, p1, p2, pbit, poff⟩ := (colHit_iff _ _ _ _ _ _ _).mp hcol
      exact hq r (by omega) p (by omega) pbit poff
    dsimp only
    rw [hmiss]
    simp
  · intro q hq
    have hmiss : rowHit c.memory c.i (c.v (c.opcode / 256 % 16))
        (c.v (c.opcode / 16 % 16)) 0 (c.opcode % 16) q = false := by
      refine Bool.eq_false_iff.mpr (fun hB => ?_)
      obtain ⟨r, h1, h2, hcol⟩ := (rowHit_iff _ _ _ _ _ _ _).mp hB
      obtain ⟨p, p1, p2, pbit, poff⟩ := (colHit_iff _ _ _ _ _ _ _).mp hcol
      omega
    dsimp only
    rw [hmiss]
    simp
  · dsimp only
    rw [upd_same]
    split <;> omega
  · dsimp only
    rw [upd_same]
    constructor
    · intro h1
      have hvf : rowVf c.memory c.i (c.v (c.opcode / 256 % 16))
          (c.v (c.opcode / 16 % 16)) 0 (c.opcode % 16) c.gfx = true := by
        by_contra hno
        rw [if_neg hno] at h1
        exact Nat.one_ne_zero h1.symm
      obtain ⟨r, h1r, h2r, hcol⟩ := (rowVf_iff _ _ _ _ _ _ _).mp hvf
      obtain ⟨p, p1, p2, pbit, pone⟩ := (colVf_iff _ _ _ _ _ _ _).mp hcol
      exact ⟨r, by omega, p, by omega, pbit, pone⟩
    · rintro ⟨r, hr, p, hp, pbit, pone⟩
      have hvf : rowVf c.memory c.i (c.v (c.opcode / 256 % 16))
          (c.v (c.opcode / 16 % 16)) 0 (c.opcode % 16) c.gfx = true :=
        (rowVf_iff _ _ _ _ _ _ _).mpr ⟨r, by omega, by omega,
          (colVf_iff _ _ _ _ _ _ _).mpr ⟨p, by omega, by omega, pbit, pone⟩⟩
      rw [hvf]
      rfl

def c2wit : Chip8 :=
  { Chip8.new with opcode := 0xD011, i := 0x300,
                   memory := fun a => if a = 0x300 then 0xFF else 0,
                   v := fun j => if j = 0 then 63 else 0,
                   gfx := fun q => if q = 63 then 1 else 0 }

/-- C2 witness: `D011` with `V0 = 63`, `V1 = 0` and the sprite row `0xFF`
toggles pixel 63 off (it was set), wraps the next sprite bit to column 0
(setting pixel 0), leaves the untargeted pixel 8 alone, and reports the
collision in `V[0xF]`. -/
theorem c2_draw_witness :
    ((draw c2wit).getD c2wit).gfx 63 = 0 ∧
    ((draw c2wit).getD c2wit).gfx 0 = 1 ∧
    ((draw c2wit).getD c2wit).gfx 8 = 0 ∧
    ((draw c2wit).getD c2wit).v 0xF = 1 := by
  have H := c2_draw c2wit ((draw c2wit).getD c2wit) 0 1 1 63 0
    (by decide) (by decide) (by decide) (by decide) (by decide) rfl
    (fun q => by dsimp only [c2wit]; split <;> omega)
  refine ⟨?_, ?_, ?_, ?_⟩
  · exact H.1 0 (by decide) 0 (by decide) (by decide)
  · exact H.1 0 (by decide) 1 (by decide) (by decide)
  · exact H.2.1 8 (by decide)
  · exact H.2.2.2.2.mpr ⟨0, by decide, 0, by decide, by decide, by decide⟩

/-- C6 (amended): drawing the same sprite twice in succession at the same
position (destination and source index fields not `0xF`, so the collision
flag write does not disturb the coordinates) restores a 0/1-valued
framebuffer to its state before the first draw, and the second draw sets
`V[0xF]` to 1 if and only if at least one set sprite bit targets a pixel
that was clear before the first draw — and to 0 otherwise. -/
theorem c6_draw_twice (c c1 c2 : Chip8)
    (hx : c.opcode / 256 % 16 ≠ 0xF) (hy : c.opcode / 16 % 16 ≠ 0xF)
    (hgfx : ∀ q, c.gfx q ≤ 1)
    (h1 : draw c = some c1) (h2 : draw c1 = some c2) :
    (∀ q, c2.gfx q = c.gfx q) ∧
    c2.v 0xF ≤ 1 ∧
    (c2.v 0xF = 1 ↔ ∃ r, r < c.opcode % 16 ∧ ∃ p, p < 8 ∧
      c.memory (c.i + r) &&& (0x80 >>> p) ≠ 0 ∧
      c.gfx (64 * ((c.v (c.opcode / 16 % 16) + r) % 32) +
        (c.v (c.opcode / 256 % 16) + p) % 64) = 0) := by
  have hs1 := draw_spec c c1 h1
  subst hs1
  have hs2 := draw_spec _ c2 h2
  subst hs2
  refine ⟨?_, ?_, ?_⟩
  · intro q
    dsimp only
    rw [upd_other _ _ _ _ hx, upd_other _ _ _ _ hy]
    by_cases hh : rowHit c.memory c.i (c.v (c.opcode / 256 % 16))
        (c.v (c.opcode / 16 % 16)) 0 (c.opcode % 16) q = true
    · have hle := hgfx q
      simp [hh]
      split_ifs <;> omega
    · have hh2 : rowHit c.memory c.i (c.v (c.opcode / 256 % 16))
          (c.v (c.opcode / 16 % 16)) 0 (c.opcode % 16) q = false :=
        Bool.eq_false_iff.mpr hh
      simp [hh2]
  · dsimp only
    rw [upd_same, upd_other _ _ _ _ hx, upd_other _ _ _ _ hy]
    split <;> omega
  · dsimp only
    rw [upd_same, upd_other _ _ _ _ hx, upd_other _ _ _ _ hy]
    constructor
    · intro hv
      have hvf : rowVf c.memory c.i (c.v (c.opcode / 256 % 16))
          (c.v (c.opcode / 16 % 16)) 0 (c.opcode % 16)
          (fun q => if rowHit c.memory c.i (c.v (c.opcode / 256 % 16))
              (c.v (c.opcode / 16 % 16)) 0 (c.opcode % 16) q then
              (if c.gfx q = 1 then 0 else 1) else c.gfx q) = true := by
        by_contra hno
        rw [if_neg hno] at hv
        omega
      obtain ⟨r, hr1, hr2, hcol⟩ := (rowVf_iff _ _ _ _ _ _ _).mp hvf
      obtain ⟨p, hp1, hp2, hbit, hone⟩ := (colVf_iff _ _ _ _ _ _ _).mp hcol
      have hhit : rowHit c.memory c.i (c.v (c.opcode / 256 % 16))
          (c.v (c.opcode / 16 % 16)) 0 (c.opcode % 16)
          (64 * ((c.v (c.opcode / 16 % 16) + r) % 32) +
            (c.v (c.opcode / 256 % 16) + p) % 64) = true :=
        (rowHit_iff _ _ _ _ _ _ _).mpr ⟨r, by omega, by omega,
          (colHit_iff _ _ _ _ _ _ _).mpr ⟨p, by omega, by omega, hbit, rfl⟩⟩
      refine ⟨r, by omega, p, by omega, hbit, ?_⟩
      by_cases hg : c.gfx (64 * ((c.v (c.opcode / 16 % 16) + r) % 32) +
          (c.v (c.opcode / 256 % 16) + p) % 64) = 1
      · exfalso
        simp [hhit, hg] at hone
      · have hle := hgfx (64 * ((c.v (c.opcode / 16 % 16) + r) % 32) +
          (c.v (c.opcode / 256 % 16) + p) % 64)
        omega
    · rintro ⟨r, hr, p, hp, hbit, hzero⟩
      have hhit : rowHit c.memory c.i (c.v (c.opcode / 256 % 16))
          (c.v (c.opcode / 16 % 16)) 0 (c.opcode % 16)
          (64 * ((c.v (c.opcode / 16 % 16) + r) % 32) +
            (c.v (c.opcode / 256 % 16) + p) % 64) = true :=
        (rowHit_iff _ _ _ _ _ _ _).mpr ⟨r, by omega, by omega,
          (colHit_iff _ _ _ _ _ _ _).mpr ⟨p, by omega, by omega, hbit, rfl⟩⟩
      have hvf : rowVf c.memory c.i (c.v (c.opcode / 256 % 16))
          (c.v (c.opcode / 16 % 16)) 0 (c.opcode % 16)
          (fun q => if rowHit c.memory c.i (c.v (c.opcode / 256 % 16))
              (c.v (c.opcode / 16 % 16)) 0 (c.opcode % 16) q then
              (if c.gfx q = 1 then 0 else 1) else c.gfx q) = true :=
        (rowVf_iff _ _ _ _ _ _ _).mpr ⟨r, by omega, by omega,
          (colVf_iff _ _ _ _ _ _ _).mpr ⟨p, by omega, by omega, hbit,
            by simp [hhit, hzero]⟩⟩
      rw [hvf]
      rfl

def c6wit : Chip8 :=
  { Chip8.new with opcode := 0xD001, i := 0x300,
                   memory := fun a => if a = 0x300 then 0x80 else 0 }

/-- C6 witness: a one-bit sprite drawn twice at (0,0) on a blank screen
sets and then clears pixel 0, restoring the framebuffer, and the second
draw reports the collision (the sprite bit targeted a clear pixel). -/
theorem c6_draw_twice_witness :
    ((draw ((draw c6wit).getD c6wit)).getD c6wit).gfx 0 = c6wit.gfx 0 ∧
    ((draw ((draw c6wit).getD c6wit)).getD c6wit).v 0xF = 1 := by
  have H := c6_draw_twice c6wit ((draw c6wit).getD c6wit)
    ((draw ((draw c6wit).getD c6wit)).getD c6wit)
    (by decide) (by decide)
    (fun q => by dsimp only [c6wit, Chip8.new]; exact Nat.zero_le 1)
    rfl rfl
  exact ⟨H.1 0, H.2.2.mpr ⟨0, by decide, 0, by decide, by decide, by decide⟩⟩

def c6x : Chip8 :=
  { Chip8.new with opcode := 0xD001, i := 0x300,
                   memory := fun a => if a = 0x300 then 0x80 else 0,
                   gfx := fun q => if q = 0 then 1 else 0 }

/-- C6 counterexample: if the only set sprite bit targets a pixel that is
already set, the first draw clears it (collision) and the second draw
re-sets it with `V[0xF] = 0` — the framebuffer is restored, but the
second draw does not set the collision flag to 1 as the claim demands. -/
theorem c6_draw_twice_cex :
    c6x.gfx 0 = 1 ∧
    ((draw c6x).getD c6x).v 0xF = 1 ∧
    ((draw ((draw c6x).getD c6x)).getD c6x).gfx 0 = c6x.gfx 0 ∧
    ((draw ((draw c6x).getD c6x)).getD c6x).v 0xF = 0 := by
  refine ⟨by decide, by decide, by decide, by decide⟩
